import Mathlib

/-!
# Verification of `pip_get.py` (ziozzang/pypi-downloader)

A shallow embedding of the version-constraint resolution and filtering
pipeline of `pip_get.py`, together with theorems settling the frozen
claims about it.

Python strings are modelled as `List Char`.  The network fetch is
abstracted as its observable result (HTTP status code plus the list of
artifact URLs that `re.findall` extracts from the page body), matching
the spec's treatment of the fetcher as an external collaborator.  The
third-party `packaging.version.Version` class is modelled from the spec
(see `parseV` below).  Every other definition is a direct translation of
the corresponding lines of `pip_get.py`.
-/

set_option autoImplicit false

namespace PipGet

/-- Python strings are modelled as lists of characters. -/
abbrev Str := List Char

/-- Convert a Lean string literal into the `Str` model. -/
def str (s : String) : Str := s.toList

/-! ## Character classes of the regular expressions in `pip_get.py`

All regexes in the source use ASCII character classes (`re` on `str`
with no flags; the inputs are URLs and CLI arguments). -/

/-- Class `[A-Za-z0-9_\-]` — group 1 of the `parse_package_spec` regex
(line 19). -/
def cls1 (c : Char) : Bool := c.isAlphanum || c = '_' || c = '-'

/-- Class `[><=]` — operator characters (lines 19 and 52). -/
def cls2 (c : Char) : Bool := c = '>' || c = '<' || c = '='

/-- Class `[0-9A-Za-z\.\-]` — group 3 of the `parse_package_spec` regex
(line 19). -/
def cls3 (c : Char) : Bool := c.isAlphanum || c = '.' || c = '-'

/-- Class `[0-9\w\.]` — the version part of the condition regex
(line 52): digits, word characters (`[A-Za-z0-9_]`) and dot. -/
def verCls (c : Char) : Bool := c.isAlphanum || c = '_' || c = '.'

/-- Class `[0-9a-zA-Z\w\.]` — group 1 of the second extraction regex
(lines 68 and 118): alphanumerics, `_` (from `\w`) and dot. -/
def wcls (c : Char) : Bool := c.isAlphanum || c = '_' || c = '.'

/-! ## Small string utilities used by the source -/

/-- Python `s.rsplit(c, 1)[0]`: everything before the *last* occurrence
of `c`, or `s` itself when `c` does not occur.  Used with `'#'` to strip
URL fragments (lines 60 and 93) and with `'.'` for
`group(1).rsplit('.', 1)[0]` (lines 70 and 119). -/
def rsplit1 (c : Char) (s : Str) : Str :=
  match s.reverse.dropWhile (fun x => x ≠ c) with
  | [] => s
  | _ :: t => t.reverse

/-- Python `s.split(c)` for a one-character separator: always returns at
least one (possibly empty) part; `"".split(".") = [""]`. -/
def splitOn (sep : Char) : Str → List Str
  | [] => [[]]
  | c :: rest =>
    if c = sep then [] :: splitOn sep rest
    else
      match splitOn sep rest with
      | [] => [[c]]
      | p :: ps => (c :: p) :: ps

/-- Python `".".join(parts)`. -/
def joinDots : List Str → Str
  | [] => []
  | [p] => p
  | p :: ps => p ++ '.' :: joinDots ps

/-- Python `c in s` for a single character. -/
def hasChar (c : Char) (s : Str) : Bool := s.any (fun x => x = c)

/-- Python `needle in hay` (substring containment). -/
def containsStr (hay needle : Str) : Bool :=
  match hay with
  | [] => needle.isEmpty
  | _ :: t => needle.isPrefixOf hay || containsStr t needle

/-- Python `s.lower()` (the source only lowercases URLs, which are
ASCII; `Char.toLower` implements the ASCII case map). -/
def lowerStr (s : Str) : Str := s.map Char.toLower

/-! ## `parse_package_spec` (lines 11–24)

The regex `^([A-Za-z0-9_\-]+)([><=]+)([0-9A-Za-z\.\-]+)$` is anchored
and its middle class `[><=]` is disjoint from both outer classes, so
greedy matching is deterministic: group 1 is the maximal `cls1` prefix,
group 2 the maximal `cls2` run after it, and group 3 the (nonempty,
all-`cls3`) remainder.  Backtracking can never produce a match when this
decomposition fails, because a shorter group 1 (resp. group 2) would
force group 2 (resp. group 3) to start on a character outside its
class. -/
def parse_package_spec (s : Str) : Str × Option Str :=
  let a := s.takeWhile cls1
  let r1 := s.dropWhile cls1
  let b := r1.takeWhile cls2
  let c := r1.dropWhile cls2
  if !a.isEmpty && !b.isEmpty && !c.isEmpty && c.all cls3 then
    (a, some (b ++ c))
  else
    (s, none)

/-! ## `normalize_version` (lines 27–34) -/

/-- The `while len(version_parts) < 3: version_parts.append("0")` loop
(lines 32–33), written with explicit fuel.  Three iterations always
suffice: each pass grows the list by one element and the loop stops as
soon as the length reaches 3, so a fuel of 3 covers every starting
length (including 0). -/
def padLoop : Nat → List Str → List Str
  | 0, l => l
  | n + 1, l => if 3 ≤ l.length then l else padLoop n (l ++ [['0']])

/-- `normalize_version` (lines 27–34): split on `.`, pad to at least
three parts with `"0"`, join with `.`. -/
def normalize_version (v : Str) : Str :=
  joinDots (padLoop 3 (splitOn '.' v))

/-! ## The version model

Modelled from the spec: `packaging.version.Version` is an external
library, not part of this repository.  Per spec §3, a Version is "an
ordered tuple of release-segment components", compared "numeric
segment-wise" (§4.3), and parsing fails with `InvalidVersion` on
strings outside the accepted grammar.  The model accepts dot-separated
nonempty all-digit segments and orders release tuples segment-wise with
implicit zero padding (so `2.0` equals `2.0.0`, as in PEP 440);
pre-release/local markers are omitted — no claim depends on them. -/

/-- Digits of a numeral string to a natural number. -/
def digitsToNat (s : Str) : Nat :=
  s.foldl (fun a c => a * 10 + (c.toNat - 48)) 0

/-- `Version(raw)`: succeed iff every dot-separated segment is a
nonempty digit string; otherwise `InvalidVersion` (`none`).
Modelled from the spec (see section comment above). -/
def parseV (s : Str) : Option (List Nat) :=
  let segs := splitOn '.' s
  if segs.all (fun p => !p.isEmpty && p.all Char.isDigit) then
    some (segs.map digitsToNat)
  else
    none

/-- Three-way comparison on `Nat`. -/
def natCmp (x y : Nat) : Ordering :=
  if x < y then .lt else if y < x then .gt else .eq

/-- Segment-wise comparison of release tuples with implicit zero
padding (an exhausted side counts as all zeros).  Modelled from the
spec (see section comment above). -/
def vcmp : List Nat → List Nat → Ordering
  | [], ys => if ys.any (fun y => 0 < y) then .lt else .eq
  | x :: xs, [] => if 0 < x then .gt else vcmp xs []
  | x :: xs, y :: ys => match natCmp x y with | .eq => vcmp xs ys | o => o

/-- The five-way operator dispatch of lines 75–84: append the link iff
the named comparison holds; any operator other than the five enumerated
falls through every branch and keeps nothing. -/
def opSat (op : Str) (v cv : List Nat) : Bool :=
  if op = str ">" then vcmp v cv == .gt
  else if op = str ">=" then !(vcmp v cv == .lt)
  else if op = str "<" then vcmp v cv == .lt
  else if op = str "<=" then !(vcmp v cv == .gt)
  else if op = str "==" then vcmp v cv == .eq
  else false

/-- The five operator strings with a branch in lines 75–84. -/
def fiveOps : List Str := [str ">", str ">=", str "<", str "<=", str "=="]

/-! ## The two version-extraction regexes (lines 64–70 and 114–119)

Tier 1 is `re.search(r'-([0-9][^-]+)-', s)`: the leftmost `-` that is
followed by a digit-led run of at least two non-`-` characters ending
right before another `-`; the group is that run.  Greedy matching is
deterministic here: `[^-]+` extends to the next hyphen (or the end, in
which case no amount of backtracking can make the trailing `-` match a
non-hyphen character).

Tier 2 is `re.search(r'-([0-9a-zA-Z\w\.]+)\.[tar|tgz|whl|zip]', s)`.
Note `[tar|tgz|whl|zip]` is a *character class* — it matches one
character from `{t,a,r,|,g,z,w,h,l,i,p}`.  At a given `-`, let `M` be
the maximal `wcls` run after it; the greedy group is the longest prefix
`M.take k` (`k ≥ 1`) such that `M` has `'.'` at index `k` and the
following character (inside `M`, or the first character after `M` when
`k + 1 = M.length`) is in the class.  The only class member outside
`wcls` is `'|'`, which is the only way the extension character can fall
outside `M`. -/

/-- One character of the tier-2 extension class `[tar|tgz|whl|zip]`. -/
def extChar (c : Char) : Bool :=
  c = 't' || c = 'a' || c = 'r' || c = '|' || c = 'g' || c = 'z' ||
  c = 'w' || c = 'h' || c = 'l' || c = 'i' || c = 'p'

/-- Tier-1 match attempt at one position: `rest` is the text after a
`-`.  Succeeds iff `rest` starts with a digit and its maximal non-`-`
run (length ≥ 2) is followed by a `-`; the group is that run. -/
def tier1At (rest : Str) : Option Str :=
  match rest with
  | [] => none
  | c :: _ =>
    let run := rest.takeWhile (fun x => x ≠ '-')
    if c.isDigit && decide (2 ≤ run.length) && !(rest.drop run.length).isEmpty then
      some run
    else
      none

/-- `re.search(r'-([0-9][^-]+)-', s).group(1)` — leftmost-position
scan. -/
def tier1 : Str → Option Str
  | [] => none
  | c :: rest =>
    if c = '-' then
      match tier1At rest with
      | some g => some g
      | none => tier1 rest
    else tier1 rest

/-- Largest `k ≥ 1` (searched downward from the fuel) such that
`M.get? k = '.'` and the next character — `M.get? (k+1)`, or the first
character after `M` when `k + 1 = M.length` — is in the extension
class. -/
def bestK (M after : Str) : Nat → Option Nat
  | 0 => none
  | k + 1 =>
    let ok :=
      (M.get? (k + 1) == some '.') &&
      match M.get? (k + 2) with
      | some c => extChar c
      | none => after.head? == some '|'
    if ok then some (k + 1) else bestK M after k

/-- Tier-2 match attempt at one position: `rest` is the text after a
`-`. -/
def tier2At (rest : Str) : Option Str :=
  let M := rest.takeWhile wcls
  let after := rest.drop M.length
  match bestK M after M.length with
  | some k => some (M.take k)
  | none => none

/-- `re.search(r'-([0-9a-zA-Z\w\.]+)\.[tar|tgz|whl|zip]', s).group(1)`
— leftmost-position scan. -/
def tier2 : Str → Option Str
  | [] => none
  | c :: rest =>
    if c = '-' then
      match tier2At rest with
      | some g => some g
      | none => tier2 rest
    else tier2 rest

/-- The guarded two-tier extraction of the constraint stage
(lines 63–70): tier 1's group, else tier 2's group with its last
dot-delimited segment removed (`rsplit('.', 1)[0]`), else no version. -/
def extractVersionStr (l : Str) : Option Str :=
  match tier1 l with
  | some g => some g
  | none =>
    match tier2 l with
    | some g => some (rsplit1 '.' g)
    | none => none

/-! ## The constraint stage of `get_package_urls` (lines 48–89) -/

/-- Python exception outcomes of the embedded pipeline: `exitOne` is a
`sys.exit(1)` after a printed error; `attrError` is an uncaught
`AttributeError` (calling `.groups()`/`.group(1)` on a failed
`re.search` result). -/
inductive PyErr where
  | exitOne
  | attrError
deriving DecidableEq

/-- Decidable equality on `Except`, for evaluating concrete runs. -/
instance {ε α : Type} [DecidableEq ε] [DecidableEq α] :
    DecidableEq (Except ε α) := fun a b =>
  match a, b with
  | .error e, .error e' =>
    if h : e = e' then .isTrue (by rw [h]) else .isFalse (by simp [h])
  | .error _, .ok _ => .isFalse (by simp)
  | .ok _, .error _ => .isFalse (by simp)
  | .ok x, .ok y =>
    if h : x = y then .isTrue (by rw [h]) else .isFalse (by simp [h])

/-- The archive extensions of line 61. -/
def archExts : List Str := [str ".tar.gz", str ".tgz", str ".whl", str ".zip"]

/-- Line 61: `any(link.lower().endswith(ext) for ext in [...])`. -/
def hasArchiveExt (l : Str) : Bool :=
  archExts.any (fun e => e.isSuffixOf (lowerStr l))

/-- The predicate characterising which (fragment-stripped) links the
constraint stage keeps: an archive extension, a successfully parsed
extracted version, and a satisfied comparison. -/
def constraintKeep (op : Str) (cv : List Nat) (l : Str) : Bool :=
  hasArchiveExt l &&
  match (extractVersionStr l).bind parseV with
  | some v => opSat op v cv
  | none => false

/-- The `for link in urls` loop of lines 59–87: strip the fragment,
gate on archive extensions, extract and parse the version (an
`InvalidVersion` is caught and the loop continues), and append the link
when the five-way dispatch accepts it. -/
def constraintLoop (op : Str) (cv : List Nat) : List Str → List Str
  | [] => []
  | u :: rest =>
    let l := rsplit1 '#' u
    let keep : Bool :=
      if hasArchiveExt l then
        match extractVersionStr l with
        | some vs =>
          match parseV vs with
          | some v => opSat op v cv
          | none => false
        | none => false
      else false
    if keep then l :: constraintLoop op cv rest else constraintLoop op cv rest

/-- `re.search(r'([><=]+)([0-9\w\.]+)', s)` (line 52): the leftmost
`[><=]` run that is directly followed by at least one `[0-9\w\.]`
character; the groups are that run and the maximal `[0-9\w\.]` run
after it.  Backtracking cannot help a failed run (a shorter operator
group would have to be followed by a `[><=]` character, which is not in
the version class), so the scan just advances one position. -/
def condSearch : Str → Option (Str × Str)
  | [] => none
  | c :: rest =>
    if cls2 c then
      let op := c :: rest.takeWhile cls2
      let after := rest.dropWhile cls2
      let ver := after.takeWhile verCls
      if ver.isEmpty then condSearch rest else some (op, ver)
    else condSearch rest

/-- Lines 50–57: search the condition for operator and version.  A
failed search raises an uncaught `AttributeError` (`.groups()` on
`None`); a version that `Version` rejects after normalization is caught
as `InvalidVersion` and converted to `sys.exit(1)`. -/
def parseCondition (c : Str) : Except PyErr (Str × List Nat) :=
  match condSearch c with
  | none => .error .attrError
  | some (op, vs) =>
    match parseV (normalize_version vs) with
    | none => .error .exitOne
    | some cv => .ok (op, cv)

/-- The no-constraint branch (lines 90–94): strip fragments only. -/
def stripStage (raw : List Str) : List Str := raw.map (rsplit1 '#')

/-! ## Name filter and latest stage (lines 97–127) -/

/-- `os.path.basename(urlparse(url).path)` (lines 101 and 111),
modelled for the absolute-URL shapes the program handles: drop the
fragment (first `#`) and query (first `?`); when the string contains
`://`, the path starts at the first `/` after it (empty when there is
none); the basename is the part after the last `/`. -/
def basename (u : Str) : Str :=
  let s := (u.takeWhile (fun x => x ≠ '#')).takeWhile (fun x => x ≠ '?')
  let path :=
    match findSchemeRest s with
    | some rest => rest.dropWhile (fun x => x ≠ '/')
    | none => s
  (path.reverse.takeWhile (fun x => x ≠ '/')).reverse
where
  /-- The text after the first `://`, when present. -/
  findSchemeRest : Str → Option Str
    | ':' :: '/' :: '/' :: rest => some rest
    | _ :: rest => findSchemeRest rest
    | [] => none

/-- Lines 98–104: `if filters:` (falsy for `None` and for an empty
list) keep a URL iff its basename contains one of the filter
substrings. -/
def applyNameFilter (filters : Option (List Str)) (urls : List Str) : List Str :=
  match filters with
  | none => urls
  | some fs =>
    if fs.isEmpty then urls
    else urls.filter (fun u => fs.any (fun f => containsStr (basename u) f))

/-- Both extraction tiers fail on a file name — the condition under
which the latest-stage scan raises `AttributeError`. -/
def noVer (fn : Str) : Bool := (tier1 fn).isNone && (tier2 fn).isNone

/-- The `for url in urls` scan of lines 110–126.  Tier 1 is guarded by
`if match:`, but tier 2 is *not*: when both searches fail,
`match.group(1)` is called on `None` and the scan raises an uncaught
`AttributeError`.  An `InvalidVersion` from `Version(version_str)` is
caught and the scan continues.  Only a strictly greater version
replaces the current best (`package_version > latest_version`), so the
first-seen greatest URL wins. -/
def latestLoop : List Str → Option (Str × List Nat) → Except PyErr (Option Str)
  | [], acc => .ok (acc.map Prod.fst)
  | u :: rest, acc =>
    let vs? : Except PyErr Str :=
      match tier1 (basename u) with
      | some g => .ok g
      | none =>
        match tier2 (basename u) with
        | some g => .ok (rsplit1 '.' g)
        | none => .error .attrError
    match vs? with
    | .error e => .error e
    | .ok vs =>
      match parseV vs with
      | none => latestLoop rest acc
      | some v =>
        match acc with
        | none => latestLoop rest (some (u, v))
        | some (b, bv) =>
          if vcmp v bv == .gt then latestLoop rest (some (u, v))
          else latestLoop rest (some (b, bv))

/-- Lines 97–129: apply the name filter, then — when `latest` is set
and the list is nonempty (`if latest and urls:`) — run the latest scan
and collapse to `[latest_url]`, or `[]` when no artifact had a
parseable version. -/
def afterStage1 (urls1 : List Str) (filters : Option (List Str)) (latest : Bool) :
    Except PyErr (List Str) :=
  if latest && !(applyNameFilter filters urls1).isEmpty then
    match latestLoop (applyNameFilter filters urls1) none with
    | .error e => .error e
    | .ok (some u) => .ok [u]
    | .ok none => .ok []
  else .ok (applyNameFilter filters urls1)

/-- `get_package_urls` (lines 37–129).  The fetch is abstracted by its
observable result: the HTTP status code and the URL list that
`re.findall(r'href="(https://files.pythonhosted.org/[^"]+)"', ...)`
extracts from the page (the ArtifactLister boundary of spec §4.4).  A
non-200 status prints an error and exits with status 1 (lines 40–42). -/
def get_package_urls (status : Nat) (raw : List Str) (cond : Option Str)
    (filters : Option (List Str)) (latest : Bool) : Except PyErr (List Str) :=
  if status ≠ 200 then .error .exitOne
  else
    match cond with
    | some c =>
      match parseCondition c with
      | .error e => .error e
      | .ok (op, cv) => afterStage1 (constraintLoop op cv raw) filters latest
    | none => afterStage1 (stripStage raw) filters latest

/-! ## `main` (lines 156–192)

The CLI wiring: choose the effective condition and filters, call
`get_package_urls`, then apply the final extension filter (lines
183–184).  The show/download step cannot change the exit status (a
failed download is printed and the loop continues, lines 146–147), so
the model stops at the final URL list.  An uncaught exception
terminates the process with a traceback and a non-zero status
(`crash`); `sys.exit(1)` terminates with status 1 (`exitOne`). -/

/-- Process outcomes of a `main` run. -/
inductive Outcome where
  | ok (urls : List Str)
  | exitOne
  | crash
deriving DecidableEq

/-- Line 174: `args.version_condition if args.version_condition else
parsed_condition` — the empty string is falsy. -/
def effCond (spec : Str) (vc : Option Str) : Option Str :=
  match vc with
  | some v => if v.isEmpty then (parse_package_spec spec).2 else some v
  | none => (parse_package_spec spec).2

/-- Line 177: `args.filter.split(',') if args.filter else None` — the
empty string is falsy. -/
def effFilters (fa : Option Str) : Option (List Str) :=
  match fa with
  | some f => if f.isEmpty then none else some (splitOn ',' f)
  | none => none

/-- Lines 183–184: keep a URL iff its lowercased text ends with one of
the comma-separated `--ext` tokens, taken verbatim as plain string
suffixes. -/
def extStage (extArg : Str) (urls : List Str) : List Str :=
  let exts := splitOn ',' extArg
  urls.filter (fun u => exts.any (fun e => e.isSuffixOf (lowerStr u)))

/-- `main` (lines 156–192) on the abstracted fetch result. -/
def runMain (status : Nat) (raw : List Str) (spec : Str) (vc : Option Str)
    (fa : Option Str) (extArg : Str) (latest : Bool) : Outcome :=
  let cond := effCond spec vc
  match get_package_urls status raw cond (effFilters fa) latest with
  | .error .exitOne => .exitOne
  | .error .attrError => .crash
  | .ok urls => .ok (extStage extArg urls)

/-! ## Declarative helpers used to state the claims -/

/-- A numeric dot-segment: nonempty and all digits. -/
def isNumSeg (p : Str) : Bool := !p.isEmpty && p.all Char.isDigit

/-- Whether processing the version condition terminates the run:
`true` when the operator/version search fails (uncaught
`AttributeError`) or the version fails to parse (`sys.exit(1)`). -/
def condBadB : Option Str → Bool
  | none => false
  | some c => match parseCondition c with | .error _ => true | .ok _ => false

/-- The URL list surviving stage 1 (constraint filtering, or fragment
stripping when no constraint); irrelevant placeholder `[]` when the
condition itself already terminated the run. -/
def effUrls1 (raw : List Str) : Option Str → List Str
  | none => stripStage raw
  | some c =>
    match parseCondition c with
    | .ok (op, cv) => constraintLoop op cv raw
    | .error _ => []

/-- Whether the latest-stage scan raises `AttributeError`: latest mode
on, a nonempty name-filtered list, and some survivor whose basename
matches neither extraction pattern. -/
def crashLatestB (urls1 : List Str) (filters : Option (List Str)) (latest : Bool) : Bool :=
  latest && !(applyNameFilter filters urls1).isEmpty &&
    (applyNameFilter filters urls1).any (fun u => noVer (basename u))

/-! ## Lemmas about splitting, joining and padding -/

theorem splitOn_ne_nil (sep : Char) (s : Str) : splitOn sep s ≠ [] := by
  cases s with
  | nil => simp [splitOn]
  | cons c rest =>
    simp only [splitOn]
    split
    · simp
    · split <;> simp

theorem splitOn_no_sep {sep : Char} {p : Str} (h : sep ∉ p) :
    splitOn sep p = [p] := by
  induction p with
  | nil => rfl
  | cons c rest ih =>
    have hc : c ≠ sep := fun hc => h (hc ▸ List.mem_cons_self c rest)
    have hrest : sep ∉ rest := fun hm => h (List.mem_cons_of_mem c hm)
    simp only [splitOn, if_neg hc, ih hrest]

theorem splitOn_append {sep : Char} {p : Str} (r : Str) (h : sep ∉ p) :
    splitOn sep (p ++ sep :: r) = p :: splitOn sep r := by
  induction p with
  | nil => simp [splitOn]
  | cons c rest ih =>
    have hc : c ≠ sep := fun hc => h (hc ▸ List.mem_cons_self c rest)
    have hrest : sep ∉ rest := fun hm => h (List.mem_cons_of_mem c hm)
    simp only [List.cons_append, splitOn, if_neg hc, List.append_eq, ih hrest]

theorem splitOn_joinDots {parts : List Str} (hne : parts ≠ [])
    (hnd : ∀ p ∈ parts, '.' ∉ p) :
    splitOn '.' (joinDots parts) = parts := by
  induction parts with
  | nil => exact absurd rfl hne
  | cons p ps ih =>
    cases ps with
    | nil =>
      simpa [joinDots] using splitOn_no_sep (hnd p (List.mem_cons_self p []))
    | cons q qs =>
      have h1 : '.' ∉ p := hnd p (List.mem_cons_self p _)
      have h2 : ∀ x ∈ q :: qs, '.' ∉ x := fun x hx =>
        hnd x (List.mem_cons_of_mem p hx)
      simp only [joinDots, splitOn_append _ h1, ih (by simp) h2]

theorem mem_splitOn_not_sep (sep : Char) (s : Str) :
    ∀ p ∈ splitOn sep s, sep ∉ p := by
  induction s with
  | nil =>
    intro p hp
    simp [splitOn] at hp
    simp [hp]
  | cons c rest ih =>
    intro p hp
    simp only [splitOn] at hp
    by_cases hc : c = sep
    · rw [if_pos hc] at hp
      rcases List.mem_cons.mp hp with h | h
      · simp [h]
      · exact ih p h
    · rw [if_neg hc] at hp
      rcases hsp : splitOn sep rest with _ | ⟨q, qs⟩
      · exact absurd hsp (splitOn_ne_nil sep rest)
      · rw [hsp] at hp
        rcases List.mem_cons.mp hp with h | h
        · subst h
          intro hmem
          rcases List.mem_cons.mp hmem with h' | h'
          · exact hc h'.symm
          · exact ih q (hsp ▸ List.mem_cons_self q qs) h'
        · exact ih p (hsp ▸ List.mem_cons_of_mem q h)

theorem padLoop_length {n : Nat} {l : List Str} (h : 3 ≤ l.length + n) :
    3 ≤ (padLoop n l).length := by
  induction n generalizing l with
  | zero => simpa using h
  | succ m ih =>
    simp only [padLoop]
    split
    · assumption
    · exact ih (by simp; omega)

theorem padLoop_mem {n : Nat} {l : List Str} :
    ∀ p ∈ padLoop n l, p ∈ l ∨ p = ['0'] := by
  induction n generalizing l with
  | zero => exact fun p hp => Or.inl hp
  | succ m ih =>
    intro p hp
    simp only [padLoop] at hp
    split at hp
    · exact Or.inl hp
    · rcases ih p hp with h | h
      · rcases List.mem_append.mp h with h' | h'
        · exact Or.inl h'
        · simp at h'
          exact Or.inr h'
      · exact Or.inr h

theorem padLoop_ne_nil {n : Nat} {l : List Str} (h : l ≠ []) :
    padLoop n l ≠ [] := by
  induction n generalizing l with
  | zero => exact h
  | succ m ih =>
    simp only [padLoop]
    split
    · exact h
    · exact ih (by simp)

theorem padLoop_stable {n : Nat} {l : List Str} (h : 3 ≤ l.length) :
    padLoop n l = l := by
  cases n <;> simp [padLoop, h]

/-- The parts of a normalized version: split-of-join recovers exactly
the padded parts list. -/
theorem splitOn_normalize (v : Str) :
    splitOn '.' (normalize_version v) = padLoop 3 (splitOn '.' v) := by
  apply splitOn_joinDots
  · exact padLoop_ne_nil (splitOn_ne_nil '.' v)
  · intro p hp
    rcases padLoop_mem p hp with h | h
    · exact mem_splitOn_not_sep '.' v p h
    · simp [h]

/-! ## Claim C7 -/

/-- C7: `normalize_version` maps `"2"` to `"2.0.0"`, `"2.1"` to
`"2.1.0"` and `"2.1.3"` to itself, and is idempotent on every input
string (in particular on every already-normalized one). -/
theorem normalize_version_examples_and_idempotent :
    normalize_version (str "2") = str "2.0.0"
    ∧ normalize_version (str "2.1") = str "2.1.0"
    ∧ normalize_version (str "2.1.3") = str "2.1.3"
    ∧ ∀ v : Str, normalize_version (normalize_version v) = normalize_version v := by
  refine ⟨by decide, by decide, by decide, fun v => ?_⟩
  have hlen : 3 ≤ (padLoop 3 (splitOn '.' v)).length :=
    padLoop_length (by omega)
  conv_lhs => rw [normalize_version, splitOn_normalize]
  rw [padLoop_stable hlen]
  rfl

/-! ## Claim C8 -/

/-- C8 counterexample: on input `"a"`, `normalize_version` yields
`"a.0.0"`, whose first dot-separated segment is not numeric — the
result does *not* consist of at least 3 numeric segments for every
input string. -/
theorem normalize_version_nonnumeric_segment :
    normalize_version (str "a") = str "a.0.0"
    ∧ (splitOn '.' (normalize_version (str "a"))).all isNumSeg = false := by
  constructor <;> decide

/-- C8 amended: for every input string, the result of
`normalize_version` consists of at least 3 dot-separated segments (the
appended padding segments are the numeric `"0"`, but pre-existing
segments are passed through unchanged and need not be numeric). -/
theorem normalize_version_three_segments (v : Str) :
    3 ≤ (splitOn '.' (normalize_version v)).length := by
  rw [splitOn_normalize]
  exact padLoop_length (by omega)

/-! ## Lemmas about the constraint stage -/

/-- The imperative loop of lines 59–87 equals a declarative filter over
the fragment-stripped URL list. -/
theorem constraintLoop_eq_filter (op : Str) (cv : List Nat) (urls : List Str) :
    constraintLoop op cv urls = (urls.map (rsplit1 '#')).filter (constraintKeep op cv) := by
  induction urls with
  | nil => rfl
  | cons u rest ih =>
    simp only [constraintLoop, List.map_cons, List.filter_cons, ih]
    have hkeep :
        (if hasArchiveExt (rsplit1 '#' u) then
          match extractVersionStr (rsplit1 '#' u) with
          | some vs =>
            match parseV vs with
            | some v => opSat op v cv
            | none => false
          | none => false
        else false) = constraintKeep op cv (rsplit1 '#' u) := by
      unfold constraintKeep
      cases hext : hasArchiveExt (rsplit1 '#' u) <;>
        cases hx : extractVersionStr (rsplit1 '#' u) <;>
        simp [hext, hx, Option.bind]
    rw [hkeep]

/-! ## Claim C1 -/

/-- C1: with a version constraint present (whose operator/version
search and version parse both succeed), `get_package_urls` keeps
exactly those (fragment-stripped) URLs that case-insensitively end in
one of `.tar.gz`, `.tgz`, `.whl`, `.zip` and whose extracted version
parses and satisfies the constraint's comparison — URLs with
unextractable or unparseable versions are dropped, and the run is not
aborted (the result is an `ok` list). -/
theorem constraint_stage_filters_exactly (c op vs : Str) (cv : List Nat)
    (raw : List Str)
    (h1 : condSearch c = some (op, vs))
    (h2 : parseV (normalize_version vs) = some cv) :
    get_package_urls 200 raw (some c) none false =
      .ok ((raw.map (rsplit1 '#')).filter (constraintKeep op cv)) := by
  simp only [get_package_urls, parseCondition, h1, h2, afterStage1,
    applyNameFilter, constraintLoop_eq_filter]
  simp

/-- Witness for C1 at a concrete listing: the constraint `>=1.2` keeps
the 2.0.0 wheel (fragment-stripped) and the 1.5.0 source archive, and
drops the 1.0.0 wheel, an artifact with an unparseable extracted
version, and a non-archive file. -/
theorem constraint_stage_filters_exactly_witness :
    get_package_urls 200
      [str "https://files.pythonhosted.org/packages/aa/pkg-1.0.0-py3-none-any.whl",
       str "https://files.pythonhosted.org/packages/aa/pkg-2.0.0-py3-none-any.whl#sha256=abc",
       str "https://files.pythonhosted.org/packages/aa/pkg-1.5.0.tar.gz",
       str "https://files.pythonhosted.org/packages/aa/pkg-3x-none.whl",
       str "https://files.pythonhosted.org/packages/aa/pkg-2.5.0.exe"]
      (some (str ">=1.2")) none false =
      .ok (([str "https://files.pythonhosted.org/packages/aa/pkg-1.0.0-py3-none-any.whl",
             str "https://files.pythonhosted.org/packages/aa/pkg-2.0.0-py3-none-any.whl#sha256=abc",
             str "https://files.pythonhosted.org/packages/aa/pkg-1.5.0.tar.gz",
             str "https://files.pythonhosted.org/packages/aa/pkg-3x-none.whl",
             str "https://files.pythonhosted.org/packages/aa/pkg-2.5.0.exe"].map (rsplit1 '#')).filter
        (constraintKeep (str ">=") [1, 2, 0])) :=
  constraint_stage_filters_exactly (str ">=1.2") (str ">=") (str "1.2") [1, 2, 0] _
    (by decide) (by decide)

/-! ## Lemmas about the name filter and the latest stage -/

theorem applyNameFilter_sublist (filters : Option (List Str)) (urls : List Str) :
    (applyNameFilter filters urls).Sublist urls := by
  unfold applyNameFilter
  cases filters with
  | none => exact List.Sublist.refl _
  | some fs =>
    by_cases he : fs.isEmpty
    · simp only [he, if_true]
      exact List.Sublist.refl _
    · simp only [he, if_false, Bool.false_eq_true]
      exact List.filter_sublist _

theorem afterStage1_latest_len (urls1 : List Str) (filters : Option (List Str))
    (res : List Str) (h : afterStage1 urls1 filters true = .ok res) :
    res.length ≤ 1 := by
  unfold afterStage1 at h
  split at h
  · split at h
    · exact absurd h (by simp)
    · simp only [Except.ok.injEq] at h
      simp [← h]
    · simp only [Except.ok.injEq] at h
      simp [← h]
  · rename_i hcond
    simp only [Bool.true_and, Bool.not_eq_false', Bool.not_eq_true] at hcond
    simp only [Except.ok.injEq] at h
    rw [← h, List.isEmpty_iff.mp hcond]
    simp

/-! ## Claim C6 -/

/-- C6: with no constraint, no filters and `latest = false`,
`get_package_urls` returns the raw listing unchanged except for
fragment stripping; in general, with `latest = false` every successful
result is a sublist (order-preserving selection) of the
fragment-stripped raw listing, and with `latest = true` every
successful result has at most one element. -/
theorem order_preservation :
    (∀ raw : List Str,
      get_package_urls 200 raw none none false = .ok (raw.map (rsplit1 '#')))
    ∧ (∀ (raw : List Str) (cond : Option Str) (filters : Option (List Str))
        (res : List Str),
        get_package_urls 200 raw cond filters false = .ok res →
        res.Sublist (raw.map (rsplit1 '#')))
    ∧ (∀ (raw : List Str) (cond : Option Str) (filters : Option (List Str))
        (res : List Str),
        get_package_urls 200 raw cond filters true = .ok res →
        res.length ≤ 1) := by
  refine ⟨fun raw => ?_, fun raw cond filters res h => ?_, fun raw cond filters res h => ?_⟩
  · simp [get_package_urls, afterStage1, applyNameFilter, stripStage]
  · cases cond with
    | none =>
      simp only [get_package_urls, ne_eq, not_true_eq_false, reduceIte,
        afterStage1, Bool.false_and, Bool.false_eq_true, if_false,
        Except.ok.injEq] at h
      rw [← h]
      exact applyNameFilter_sublist filters (stripStage raw)
    | some c =>
      simp only [get_package_urls, ne_eq, not_true_eq_false, reduceIte] at h
      cases hpc : parseCondition c with
      | error e => rw [hpc] at h; exact absurd h (by simp)
      | ok oc =>
        rw [hpc] at h
        obtain ⟨op, cv⟩ := oc
        simp only [afterStage1, Bool.false_and, Bool.false_eq_true, if_false,
          Except.ok.injEq] at h
        rw [← h]
        refine (applyNameFilter_sublist _ _).trans ?_
        rw [constraintLoop_eq_filter]
        exact List.filter_sublist _
  · cases cond with
    | none =>
      simp only [get_package_urls, ne_eq, not_true_eq_false, reduceIte] at h
      exact afterStage1_latest_len _ _ _ h
    | some c =>
      simp only [get_package_urls, ne_eq, not_true_eq_false, reduceIte] at h
      cases hpc : parseCondition c with
      | error e => rw [hpc] at h; exact absurd h (by simp)
      | ok oc =>
        rw [hpc] at h
        obtain ⟨op, cv⟩ := oc
        exact afterStage1_latest_len _ _ _ h

/-- Witness for C6 at a concrete listing: with a name filter present,
the surviving URL list is an order-preserving sublist of the
fragment-stripped raw listing. -/
theorem order_preservation_witness :
    List.Sublist
      [str "https://files.pythonhosted.org/packages/aa/pkg-1.0.0-py3-none-any.whl"]
      ([str "https://files.pythonhosted.org/packages/aa/pkg-1.0.0-py3-none-any.whl#sha256=x",
        str "https://files.pythonhosted.org/packages/aa/other-2.0.0.tar.gz"].map (rsplit1 '#')) :=
  order_preservation.2.1
    [str "https://files.pythonhosted.org/packages/aa/pkg-1.0.0-py3-none-any.whl#sha256=x",
     str "https://files.pythonhosted.org/packages/aa/other-2.0.0.tar.gz"]
    none (some [str "pkg"])
    [str "https://files.pythonhosted.org/packages/aa/pkg-1.0.0-py3-none-any.whl"]
    (by decide)

/-! ## Claim C2 -/

/-- C2 (code bug): in latest mode, an artifact whose file name matches
*neither* extraction regex does not get skipped — the unguarded
`match.group(1)` of line 119 is called on `None` and the scan raises an
uncaught `AttributeError` (modelled as `.error .attrError`), contrary
to the claimed "skipping — never raising" behavior. -/
theorem latest_mode_crashes_on_unextractable :
    get_package_urls 200
      [str "https://files.pythonhosted.org/packages/aa/bb/foo.whl"]
      none none true = .error .attrError := by decide

/-! ## Characterizing the process exit status (claim C3) -/

/-- The latest-stage scan raises `AttributeError` iff some scanned URL
has a basename on which both extraction regexes fail; otherwise it
completes. -/
theorem latestLoop_error_iff (l : List Str) : ∀ acc,
    (∃ e, latestLoop l acc = .error e) ↔
    l.any (fun u => noVer (basename u)) = true := by
  induction l with
  | nil => intro acc; simp [latestLoop]
  | cons u rest ih =>
    intro acc
    simp only [List.any_cons, Bool.or_eq_true]
    cases h1 : tier1 (basename u) with
    | some g =>
      have hnv : noVer (basename u) = false := by simp [noVer, h1]
      cases hp : parseV g with
      | none => simp [latestLoop, h1, hp, hnv, ih acc]
      | some v =>
        cases acc with
        | none => simp [latestLoop, h1, hp, hnv, ih]
        | some bp =>
          obtain ⟨b, bv⟩ := bp
          simp only [latestLoop, h1, hp, hnv, Bool.false_eq_true, false_or]
          split <;> rw [ih]
    | none =>
      cases h2 : tier2 (basename u) with
      | some g =>
        have hnv : noVer (basename u) = false := by simp [noVer, h1, h2]
        cases hp : parseV (rsplit1 '.' g) with
        | none => simp [latestLoop, h1, h2, hp, hnv, ih acc]
        | some v =>
          cases acc with
          | none => simp [latestLoop, h1, h2, hp, hnv, ih]
          | some bp =>
            obtain ⟨b, bv⟩ := bp
            simp only [latestLoop, h1, h2, hp, hnv, Bool.false_eq_true, false_or]
            split <;> rw [ih]
      | none =>
        have hnv : noVer (basename u) = true := by simp [noVer, h1, h2]
        simp [latestLoop, h1, h2, hnv]

/-- The post-constraint stages succeed iff the latest-stage crash
condition is absent. -/
theorem afterStage1_ok_iff (urls1 : List Str) (filters : Option (List Str))
    (latest : Bool) :
    (∃ us, afterStage1 urls1 filters latest = .ok us) ↔
    crashLatestB urls1 filters latest = false := by
  unfold afterStage1 crashLatestB
  cases hl : latest && !(applyNameFilter filters urls1).isEmpty with
  | false => simp [hl]
  | true =>
    simp only [hl, if_true]
    cases hll : latestLoop (applyNameFilter filters urls1) none with
    | error e =>
      have hany := (latestLoop_error_iff _ none).mp ⟨e, hll⟩
      simp [hany]
    | ok o =>
      have hnoany :
          (applyNameFilter filters urls1).any (fun u => noVer (basename u)) = false := by
        by_contra hc
        obtain ⟨e, he⟩ :=
          (latestLoop_error_iff (applyNameFilter filters urls1) none).mpr
            (Bool.not_eq_false _ ▸ Bool.of_not_eq_false hc)
        rw [hll] at he
        exact absurd he (by simp)
      cases o <;> simp [hnoany]

/-- `get_package_urls` succeeds iff the fetch returned 200, the
condition (when present) parsed, and the latest-stage crash condition
is absent. -/
theorem get_package_urls_ok_iff (status : Nat) (raw : List Str)
    (cond : Option Str) (filters : Option (List Str)) (latest : Bool) :
    (∃ us, get_package_urls status raw cond filters latest = .ok us) ↔
    (status = 200 ∧ condBadB cond = false ∧
     crashLatestB (effUrls1 raw cond) filters latest = false) := by
  by_cases hs : status = 200
  · subst hs
    simp only [get_package_urls, ne_eq, not_true_eq_false, reduceIte]
    cases cond with
    | none => simp [condBadB, effUrls1, afterStage1_ok_iff]
    | some c =>
      cases hpc : parseCondition c with
      | error e => simp [hpc, condBadB, effUrls1]
      | ok oc =>
        obtain ⟨op, cv⟩ := oc
        simp [hpc, condBadB, effUrls1, afterStage1_ok_iff]
  · simp [get_package_urls, hs]

/-! ## Claim C3 -/

/-- C3 counterexample: a run whose listing fetch returns 200 and which
has no version constraint at all still terminates non-zero — in latest
mode, an artifact file name matching neither extraction regex raises an
uncaught `AttributeError` (a crash, not the claimed zero exit). -/
theorem exit_nonzero_outside_claimed_cases :
    runMain 200 [str "https://files.pythonhosted.org/packages/aa/bb/bar.whl"]
      (str "flask") none none (str "whl,zip,tgz,gz") true = Outcome.crash := by
  decide

/-- C3 amended: the run terminates non-zero exactly when the listing
fetch is not HTTP 200, or a version constraint is present and fails to
process (no operator/version match — an uncaught `AttributeError` — or
an unparseable version — `sys.exit(1)`), or latest mode scans a
nonempty filtered list containing an artifact whose file name matches
neither extraction regex (uncaught `AttributeError`); in every other
run (including runs where zero artifacts match) it exits zero. -/
theorem exit_behavior (status : Nat) (raw : List Str) (spec : Str)
    (vc : Option Str) (fa : Option Str) (ea : Str) (latest : Bool) :
    (∃ us, runMain status raw spec vc fa ea latest = Outcome.ok us) ↔
    (status = 200 ∧ condBadB (effCond spec vc) = false ∧
     crashLatestB (effUrls1 raw (effCond spec vc)) (effFilters fa) latest = false) := by
  rw [← get_package_urls_ok_iff status raw (effCond spec vc) (effFilters fa) latest]
  simp only [runMain]
  cases hg : get_package_urls status raw (effCond spec vc) (effFilters fa) latest with
  | error e => cases e <;> simp
  | ok urls => simp

/-! ## Lemmas about `parse_package_spec` (claim C4) -/

theorem all_takeWhile (p : Char → Bool) (l : Str) :
    ∀ x ∈ l.takeWhile p, p x = true := by
  induction l with
  | nil => simp
  | cons c t ih =>
    intro x hx
    rw [List.takeWhile_cons] at hx
    by_cases hc : p c = true
    · rw [if_pos hc] at hx
      rcases List.mem_cons.mp hx with h | h
      · rwa [h]
      · exact ih x h
    · rw [if_neg hc] at hx
      exact absurd hx (List.not_mem_nil x)

theorem takeWhile_append_of_all {p : Char → Bool} {a : Str} (rest : Str)
    (ha : ∀ x ∈ a, p x = true)
    (hr : ∀ c, rest.head? = some c → p c = false) :
    (a ++ rest).takeWhile p = a ∧ (a ++ rest).dropWhile p = rest := by
  induction a with
  | nil =>
    cases rest with
    | nil => simp
    | cons c t =>
      have hc : p c = false := hr c rfl
      simp [List.takeWhile_cons, List.dropWhile_cons, hc]
  | cons x a' ih =>
    have hx : p x = true := ha x (List.mem_cons_self x a')
    have ha' : ∀ y ∈ a', p y = true := fun y hy => ha y (List.mem_cons_of_mem x hy)
    obtain ⟨h1, h2⟩ := ih ha'
    simp [List.takeWhile_cons, List.dropWhile_cons, hx, h1, h2]

theorem cls2_elim {c : Char} (h : cls2 c = true) :
    c = '>' ∨ c = '<' ∨ c = '=' := by
  simp only [cls2, Bool.or_eq_true, decide_eq_true_eq] at h
  tauto

theorem cls2_not_cls1 {c : Char} (h : cls2 c = true) : cls1 c = false := by
  rcases cls2_elim h with rfl | rfl | rfl <;> decide

theorem cls3_not_cls2 {c : Char} (h : cls3 c = true) : cls2 c = false := by
  cases hc : cls2 c with
  | false => rfl
  | true =>
    exfalso
    rcases cls2_elim hc with rfl | rfl | rfl <;> exact absurd h (by decide)

/-! ## Claim C4 -/

/-- C4: `parse_package_spec` returns `(name, operator ++ version)` when
the input decomposes as the anchored regex
`^([A-Za-z0-9_-]+)([><=]+)([0-9A-Za-z.-]+)$` demands (the decomposition
is unique because the operator class is disjoint from both outer
classes), and otherwise returns the input verbatim with no constraint;
it never fails.  In particular `"flask"`, `"flask>2"` and
`"flask==1.2.3"` map to `("flask", None)`, `("flask", ">2")` and
`("flask", "==1.2.3")`. -/
theorem parse_package_spec_characterization :
    (∀ s a b c : Str, (∀ x ∈ a, cls1 x = true) → (∀ x ∈ b, cls2 x = true) →
      (∀ x ∈ c, cls3 x = true) → a ≠ [] → b ≠ [] → c ≠ [] →
      s = a ++ b ++ c →
      parse_package_spec s = (a, some (b ++ c)))
    ∧ (∀ s : Str,
      (¬ ∃ a b c : Str, (∀ x ∈ a, cls1 x = true) ∧ (∀ x ∈ b, cls2 x = true) ∧
        (∀ x ∈ c, cls3 x = true) ∧ a ≠ [] ∧ b ≠ [] ∧ c ≠ [] ∧ s = a ++ b ++ c) →
      parse_package_spec s = (s, none))
    ∧ parse_package_spec (str "flask") = (str "flask", none)
    ∧ parse_package_spec (str "flask>2") = (str "flask", some (str ">2"))
    ∧ parse_package_spec (str "flask==1.2.3") = (str "flask", some (str "==1.2.3")) := by
  refine ⟨?_, ?_, by decide, by decide, by decide⟩
  · intro s a b c ha hb hc hane hbne hcne hs
    obtain ⟨x, xs, rfl⟩ := List.exists_cons_of_ne_nil hbne
    obtain ⟨y, ys, rfl⟩ := List.exists_cons_of_ne_nil hcne
    subst hs
    rw [List.append_assoc]
    have h1 := takeWhile_append_of_all (p := cls1) ((x :: xs) ++ (y :: ys)) ha
      (fun ch hch => by
        simp only [List.cons_append, List.head?_cons, Option.some.injEq] at hch
        exact hch ▸ cls2_not_cls1 (hb x (List.mem_cons_self x xs)))
    have h2 := takeWhile_append_of_all (p := cls2) (y :: ys) hb
      (fun ch hch => by
        simp only [List.head?_cons, Option.some.injEq] at hch
        exact hch ▸ cls3_not_cls2 (hc y (List.mem_cons_self y ys)))
    have hae : a.isEmpty = false := by
      cases a with
      | nil => exact absurd rfl hane
      | cons _ _ => rfl
    simp only [parse_package_spec, h1.1, h1.2, h2.1, h2.2, hae,
      List.isEmpty_cons, Bool.not_false, Bool.and_self, Bool.true_and,
      List.all_eq_true.mpr hc, Bool.and_true, if_true]
  · intro s hnex
    by_cases hcond :
        (!(s.takeWhile cls1).isEmpty &&
         !((s.dropWhile cls1).takeWhile cls2).isEmpty &&
         !((s.dropWhile cls1).dropWhile cls2).isEmpty &&
         ((s.dropWhile cls1).dropWhile cls2).all cls3) = true
    · exfalso
      apply hnex
      simp only [Bool.and_eq_true, Bool.not_eq_true', List.isEmpty_eq_false]
        at hcond
      obtain ⟨⟨⟨hane, hbne⟩, hcne⟩, hall⟩ := hcond
      refine ⟨s.takeWhile cls1, (s.dropWhile cls1).takeWhile cls2,
        (s.dropWhile cls1).dropWhile cls2,
        all_takeWhile cls1 s, all_takeWhile cls2 (s.dropWhile cls1),
        List.all_eq_true.mp hall, hane, hbne, hcne, ?_⟩
      rw [List.append_assoc, List.takeWhile_append_dropWhile,
        List.takeWhile_append_dropWhile]
    · simp only [parse_package_spec]
      rw [if_neg hcond]

/-- Witness for C4 at a concrete decomposable input. -/
theorem parse_package_spec_characterization_witness :
    parse_package_spec (str "numpy>=1.2") = (str "numpy", some (str ">=1.2")) :=
  parse_package_spec_characterization.1 (str "numpy>=1.2") (str "numpy")
    (str ">=") (str "1.2") (by decide) (by decide) (by decide)
    (by decide) (by decide) (by decide) (by decide)

/-! ## Lemmas about the constraint operator (claim C9) -/

theorem opSat_not_five {op : Str} (h : fiveOps.contains op = false)
    (v cv : List Nat) : opSat op v cv = false := by
  have h1 : op ≠ str ">" := fun he => absurd (he ▸ h) (by decide)
  have h2 : op ≠ str ">=" := fun he => absurd (he ▸ h) (by decide)
  have h3 : op ≠ str "<" := fun he => absurd (he ▸ h) (by decide)
  have h4 : op ≠ str "<=" := fun he => absurd (he ▸ h) (by decide)
  have h5 : op ≠ str "==" := fun he => absurd (he ▸ h) (by decide)
  simp [opSat, h1, h2, h3, h4, h5]

theorem constraintLoop_not_five {op : Str} (h : fiveOps.contains op = false)
    (cv : List Nat) (urls : List Str) : constraintLoop op cv urls = [] := by
  rw [constraintLoop_eq_filter]
  rw [List.filter_eq_nil_iff]
  intro l _
  cases hx : (extractVersionStr l).bind parseV with
  | none => simp [constraintKeep, hx]
  | some v => simp [constraintKeep, hx, opSat_not_five h]

/-! ## Claim C9 -/

/-- C9 counterexample: the program produces a constraint whose operator
is `"=>"`, which is not one of the five enumerated operators —
`parse_package_spec` accepts `"flask=>2"` and the condition search of
line 52 then extracts the operator `"=>"`. -/
theorem operator_outside_five :
    parse_package_spec (str "flask=>2") = (str "flask", some (str "=>2"))
    ∧ condSearch (str "=>2") = some (str "=>", str "2")
    ∧ fiveOps.contains (str "=>") = false := by
  refine ⟨by decide, by decide, by decide⟩

/-- C9 amended: every operator the condition search produces is a
nonempty run of characters from `{>, <, =}` (not necessarily one of the
five enumerated operators), and a constraint whose operator is not one
of the five falls through every comparison branch, so the constraint
stage keeps no URLs. -/
theorem operator_shape :
    (∀ s op vs : Str, condSearch s = some (op, vs) →
      op ≠ [] ∧ ∀ x ∈ op, cls2 x = true)
    ∧ (∀ (op : Str) (cv : List Nat) (urls : List Str),
      fiveOps.contains op = false → constraintLoop op cv urls = []) := by
  constructor
  · intro s
    induction s with
    | nil => intro op vs h; exact absurd h (by simp [condSearch])
    | cons c rest ih =>
      intro op vs h
      simp only [condSearch] at h
      by_cases hc : cls2 c = true
      · rw [if_pos hc] at h
        split at h
        · exact ih op vs h
        · simp only [Option.some.injEq, Prod.mk.injEq] at h
          obtain ⟨hop, _⟩ := h
          subst hop
          refine ⟨by simp, fun x hx => ?_⟩
          rcases List.mem_cons.mp hx with h' | h'
          · rwa [h']
          · exact all_takeWhile cls2 rest x h'
      · rw [if_neg hc] at h
        exact ih op vs h
  · intro op cv urls h
    exact constraintLoop_not_five h cv urls

/-- Witness for C9 at a concrete condition string. -/
theorem operator_shape_witness :
    (str ">=") ≠ [] ∧ ∀ x ∈ str ">=", cls2 x = true :=
  operator_shape.1 (str ">=1.0") (str ">=") (str "1.0") (by decide)

/-! ## Claim C5 -/

/-- C5: on the wheel name `"flask-2.0.1-py3-none-any.whl"` the first
extraction tier (digit-led run bounded by hyphens) yields `"2.0.1"`;
on `"flask-2.0.1.tar.gz"` the first tier fails, the second tier matches
the run `"2.0.1.tar"` before the extension-class character, and
removing its last dot-delimited segment yields `"2.0.1"`. -/
theorem version_extraction_examples :
    tier1 (str "flask-2.0.1-py3-none-any.whl") = some (str "2.0.1")
    ∧ extractVersionStr (str "flask-2.0.1-py3-none-any.whl") = some (str "2.0.1")
    ∧ tier1 (str "flask-2.0.1.tar.gz") = none
    ∧ tier2 (str "flask-2.0.1.tar.gz") = some (str "2.0.1.tar")
    ∧ extractVersionStr (str "flask-2.0.1.tar.gz") = some (str "2.0.1") := by
  refine ⟨by decide, by decide, by decide, by decide, by decide⟩

/-! ## Claim C10 -/

/-- C10: the final extension stage keeps a URL iff its lowercased text
ends with one of the comma-separated `--ext` tokens taken verbatim as a
plain suffix; under the default `"whl,zip,tgz,gz"` the token `"gz"`
retains both `.tar.gz` and `.tgz` files, and a token need not be a
whole dot-extension (`...customgz` is also kept). -/
theorem ext_stage_characterization :
    (∀ (ea : Str) (urls : List Str),
      extStage ea urls =
        urls.filter (fun u => (splitOn ',' ea).any (fun e => e.isSuffixOf (lowerStr u))))
    ∧ splitOn ',' (str "whl,zip,tgz,gz") = [str "whl", str "zip", str "tgz", str "gz"]
    ∧ (str "gz").isSuffixOf (lowerStr (str "https://files.pythonhosted.org/p/pkg-1.0.tar.gz")) = true
    ∧ (str "gz").isSuffixOf (lowerStr (str "https://files.pythonhosted.org/p/pkg-1.0.tgz")) = true
    ∧ extStage (str "whl,zip,tgz,gz")
        [str "https://x/a.TAR.GZ", str "https://x/b.tgz",
         str "https://x/c.customgz", str "https://x/d.exe"] =
      [str "https://x/a.TAR.GZ", str "https://x/b.tgz", str "https://x/c.customgz"] := by
  refine ⟨fun ea urls => rfl, by decide, by decide, by decide, by decide⟩

end PipGet
